import Mathlib

/-!
# Verification of the VipCall live-session hook (`useGeminiLive`)

Shallow embedding of the session hook in `src/unnamed/part_000` (the
`useGeminiLive` React hook) and of its `onmessage`, `cleanup`,
`stopSession` and `switchCamera` functions.  Times on the audio output
timeline (`AudioContext.currentTime`, `nextStartTimeRef`, buffer
durations) are modelled as rationals; `generateId` (a random token in
the source) is modelled as a fresh-counter supply of distinct tokens;
the base64/PCM codec (`decode` / `decodeAudioData`, external pure
utilities) is modelled by the decode outcome carried on the payload.
JavaScript object sharing matters for the transcript log (entry objects
are mutated in place while also sitting inside arrays handed to the
observer), so transcript entries live in a store indexed by id and an
array of entries is modelled as a list of ids into that store.
-/

/-! ## Playback scheduler state

`nextStartTimeRef` (the playback clock, "next available start time"),
`audioSourcesRef` (the live set of `AudioBufferSourceNode`s, as ids) and
a counter supplying ids for freshly created source nodes. -/

structure PlaybackState where
  nextStartTime : ℚ
  audioSources : List Nat
  nextSourceId : Nat
deriving Repr, DecidableEq

/-- The audio-scheduling block of `onmessage` (part_000 lines 210-227)
in the successful-decode case: `nextStartTime = max(nextStartTime, now)`
(line 212), `source.start(nextStartTime)` (line 224),
`nextStartTime += duration` (line 225), register the source (line 226).
Returns the new state and the start time passed to `source.start`. -/
def enqueueChunk (now dur : ℚ) (s : PlaybackState) : PlaybackState × ℚ :=
  let start := max s.nextStartTime now
  (⟨start + dur, s.audioSources ++ [s.nextSourceId], s.nextSourceId + 1⟩, start)

/-- The `interrupted` block of `onmessage` (part_000 lines 229-233):
stop every source in the live set, clear the set, reset the clock to 0.
Returns the new state and the list of ids on which `stop()` was called. -/
def interruptFlush (s : PlaybackState) : PlaybackState × List Nat :=
  (⟨0, [], s.nextSourceId⟩, s.audioSources)

/-- Start times produced by a run of enqueues: for each `(now, dur)`
pair in arrival order, the time at which that chunk's source is started. -/
def startTimes (s : PlaybackState) : List (ℚ × ℚ) → List ℚ
  | [] => []
  | (now, dur) :: rest =>
      let r := enqueueChunk now dur s
      r.2 :: startTimes r.1 rest

/-- Every enqueue in the run happens while the playback clock is at or
ahead of `now` (decode+enqueue keeps up with real time, so the
self-healing `max` never skips ahead). -/
def noLag (s : PlaybackState) : List (ℚ × ℚ) → Bool
  | [] => true
  | (now, dur) :: rest =>
      decide (now ≤ s.nextStartTime) && noLag (enqueueChunk now dur s).1 rest

theorem startTimes_length (s : PlaybackState) (chunks : List (ℚ × ℚ)) :
    (startTimes s chunks).length = chunks.length := by
  induction chunks generalizing s with
  | nil => rfl
  | cons c rest ih =>
      obtain ⟨now, dur⟩ := c
      simp [startTimes, ih]

/-- **C1.** In a run without interruption in which each enqueue happens
while the clock is at or ahead of `now`, chunk `k` (0-based) starts at
the initial clock value plus the sum of the durations of chunks
`0..k-1`; chunk `0` starts at the initial clock value, so chunk `k`
starts at chunk `0`'s start time plus the sum of the preceding
durations — back-to-back, zero gap, zero overlap.  Each enqueue computes
`start = max(clock, now)` and advances the clock to `start + duration`
(definition `enqueueChunk`). -/
theorem playback_gapless_schedule (s : PlaybackState) (chunks : List (ℚ × ℚ))
    (h : noLag s chunks = true) :
    ∀ k, k < chunks.length →
      (startTimes s chunks)[k]? =
        some (s.nextStartTime + ((chunks.take k).map Prod.snd).sum) := by
  induction chunks generalizing s with
  | nil => intro k hk; simp at hk
  | cons c rest ih =>
      obtain ⟨now, dur⟩ := c
      simp only [noLag, Bool.and_eq_true, decide_eq_true_eq] at h
      obtain ⟨hle, hrest⟩ := h
      have hmax : max s.nextStartTime now = s.nextStartTime := max_eq_left hle
      intro k hk
      cases k with
      | zero =>
          simp [startTimes, enqueueChunk, hmax]
      | succ k =>
          have hk' : k < rest.length := by simpa using Nat.lt_of_succ_lt_succ hk
          have := ih (enqueueChunk now dur s).1 hrest k hk'
          simp only [startTimes, List.getElem?_cons_succ]
          rw [this]
          simp [enqueueChunk, hmax, List.take_succ_cons, add_assoc]

/-- Witness for C1: clock starts at 1, chunks of durations 2, 3, 4
arrive at times 0, 3, 6; the third chunk starts at 1 + (2 + 3). -/
theorem playback_gapless_schedule_witness :
    noLag ⟨1, [], 0⟩ [(0, 2), (3, 3), (6, 4)] = true ∧
      (startTimes ⟨1, [], 0⟩ [(0, 2), (3, 3), (6, 4)])[2]? =
        some ((1 : ℚ) +
          ((([(0, 2), (3, 3), (6, 4)] : List (ℚ × ℚ)).take 2).map Prod.snd).sum) :=
  ⟨by norm_num [noLag, enqueueChunk],
   playback_gapless_schedule ⟨1, [], 0⟩ [(0, 2), (3, 3), (6, 4)]
     (by norm_num [noLag, enqueueChunk]) 2 (by norm_num)⟩

/-- **C2.** The `interrupted` handler stops exactly the registered
sources, leaves the live set empty, resets the clock to 0; with an
empty live set it calls `stop()` on nothing and changes nothing but the
(already caught-up) clock; and an enqueue performed after the flush
starts at `now` (never at a stale pre-interrupt clock value), since
`max 0 now = now` for `0 ≤ now`. -/
theorem interrupt_flush_spec (s : PlaybackState) (now dur : ℚ) (hnow : 0 ≤ now) :
    (interruptFlush s).2 = s.audioSources ∧
    (interruptFlush s).1.audioSources = [] ∧
    (interruptFlush s).1.nextStartTime = 0 ∧
    (s.audioSources = [] → interruptFlush s = (⟨0, [], s.nextSourceId⟩, [])) ∧
    (enqueueChunk now dur (interruptFlush s).1).2 = now := by
  refine ⟨rfl, rfl, rfl, ?_, ?_⟩
  · intro h; simp [interruptFlush, h]
  · simp [interruptFlush, enqueueChunk, max_eq_right hnow]

/-- Witness for C2: a state with clock 7 and two live sources, a
subsequent enqueue at time 3 with duration 2. -/
theorem interrupt_flush_spec_witness :
    (0 : ℚ) ≤ 3 ∧
      ((interruptFlush ⟨7, [4, 5], 6⟩).2 = [4, 5] ∧
       (interruptFlush ⟨7, [4, 5], 6⟩).1.audioSources = [] ∧
       (interruptFlush ⟨7, [4, 5], 6⟩).1.nextStartTime = 0 ∧
       (([4, 5] : List Nat) = [] → interruptFlush ⟨7, [4, 5], 6⟩ = (⟨0, [], 6⟩, [])) ∧
       (enqueueChunk 3 2 (interruptFlush ⟨7, [4, 5], 6⟩).1).2 = 3) :=
  ⟨by norm_num, interrupt_flush_spec ⟨7, [4, 5], 6⟩ 3 2 (by norm_num)⟩

/-! ## Transcript aggregation state

`transcriptionsRef` is an array of entry objects that are also reachable
through `currentInputTranscriptionRef` / `currentOutputTranscriptionRef`
and mutated in place.  To model JavaScript reference sharing, entry
objects live in `store` (position = the entry's id, ids being allocated
consecutively by the fresh-token supply standing in for `generateId`),
and any JavaScript array of entries is a list of ids into `store`. -/

inductive Sender
  | user
  | ai
deriving Repr, DecidableEq

structure Entry where
  id : Nat
  sender : Sender
  text : String
  isFinal : Bool
deriving Repr, DecidableEq

structure TranscriptState where
  store : List Entry
  order : List Nat
  currentInput : Option Nat
  currentOutput : Option Nat
deriving Repr, DecidableEq

/-- State after the reset at session start (part_000 lines 126-129). -/
def transcriptReset : TranscriptState := ⟨[], [], none, none⟩

/-- Contents of a JavaScript array of entry references, read through the
current store (reference semantics: the array holds shared objects). -/
def materialize (store : List Entry) (ids : List Nat) : List Entry :=
  ids.filterMap (fun i => store[i]?)

def slotOf (s : TranscriptState) : Sender → Option Nat
  | .user => s.currentInput
  | .ai => s.currentOutput

def setSlot (s : TranscriptState) (sd : Sender) (v : Option Nat) : TranscriptState :=
  match sd with
  | .user => { s with currentInput := v }
  | .ai => { s with currentOutput := v }

/-- Transcript-delta handling in `onmessage` (part_000 lines 185-199):
if the sender's current slot is empty, create a fresh entry with empty
text and push it onto the array; then append `t` in place to the slot's
entry. -/
def applyDelta (sd : Sender) (t : String) (s : TranscriptState) : TranscriptState :=
  let s1 :=
    match slotOf s sd with
    | some _ => s
    | none =>
        let fresh := s.store.length
        setSlot { s with store := s.store ++ [⟨fresh, sd, "", false⟩],
                         order := s.order ++ [fresh] } sd (some fresh)
  match slotOf s1 sd with
  | some id =>
      match s1.store[id]? with
      | some e => { s1 with store := s1.store.set id { e with text := e.text ++ t } }
      | none => s1
  | none => s1

def markFinal (e : Entry) : Entry := { e with isFinal := true }

/-- Finalize, in place, the entry a slot points at (if any). -/
def finalizeAt (store : List Entry) : Option Nat → List Entry
  | none => store
  | some id =>
      match store[id]? with
      | some e => store.set id (markFinal e)
      | none => store

/-- `turnComplete` handling in `onmessage` (part_000 lines 201-206):
set `isFinal` on both slots' entries and clear both slots. -/
def completeTurn (s : TranscriptState) : TranscriptState :=
  { s with store := finalizeAt (finalizeAt s.store s.currentInput) s.currentOutput,
           currentInput := none,
           currentOutput := none }

/-- Index `i` of the store holds a non-final entry of sender `sd`. -/
def isOpenIdx (store : List Entry) (i : Nat) (sd : Sender) : Bool :=
  match store[i]? with
  | some e => e.sender == sd && !e.isFinal
  | none => false

def hasOpen (store : List Entry) (sd : Sender) : Bool :=
  store.any (fun e => e.sender == sd && !e.isFinal)

/-- A slot is coherent: empty exactly when its sender has no open entry,
and otherwise pointing at that sender's unique open entry. -/
def slotWF (store : List Entry) (sd : Sender) : Option Nat → Bool
  | none => !hasOpen store sd
  | some id =>
      isOpenIdx store id sd &&
        (List.range store.length).all fun i => !isOpenIdx store i sd || i == id

/-- Ids equal store positions (ids are allocated consecutively). -/
def idsWF (store : List Entry) : Bool :=
  (List.range store.length).all fun i => (store[i]?.map Entry.id) == some i

/-- Invariant of the transcript state, established by the session-start
reset and preserved by delta and turn-complete handling. -/
def WF (s : TranscriptState) : Bool :=
  idsWF s.store && slotWF s.store .user s.currentInput &&
    slotWF s.store .ai s.currentOutput

theorem concat_getElem_length {α : Type} (l : List α) (a : α) :
    (l ++ [a])[l.length]? = some a := by
  induction l with
  | nil => rfl
  | cons x xs ih => simpa using ih

theorem concat_set_length {α : Type} (l : List α) (a b : α) :
    (l ++ [a]).set l.length b = l ++ [b] := by
  induction l with
  | nil => rfl
  | cons x xs ih => simp [List.set, ih]

theorem wf_parts {s : TranscriptState} (h : WF s = true) :
    idsWF s.store = true ∧ slotWF s.store .user s.currentInput = true ∧
      slotWF s.store .ai s.currentOutput = true := by
  simp only [WF, Bool.and_eq_true, and_assoc] at h
  exact h

theorem slotWF_of_wf {s : TranscriptState} (h : WF s = true) (sd : Sender) :
    slotWF s.store sd (slotOf s sd) = true := by
  obtain ⟨_, hu, ha⟩ := wf_parts h
  cases sd <;> simp [slotOf, hu, ha]

theorem hasOpen_of_isOpenIdx {store : List Entry} {i : Nat} {sd : Sender}
    (h : isOpenIdx store i sd = true) : hasOpen store sd = true := by
  unfold isOpenIdx at h
  cases hg : store[i]? with
  | none => rw [hg] at h; cases h
  | some e =>
      rw [hg] at h
      have he : e ∈ store := by
        have h2 := List.getElem?_eq_some.mp hg
        obtain ⟨hi, rfl⟩ := h2
        exact List.getElem_mem hi
      exact List.any_eq_true.mpr ⟨e, he, h⟩

theorem slot_none_iff {s : TranscriptState} (h : WF s = true) (sd : Sender) :
    slotOf s sd = none ↔ hasOpen s.store sd = false := by
  have hs := slotWF_of_wf h sd
  cases hslot : slotOf s sd with
  | none =>
      rw [hslot] at hs
      simp only [slotWF, Bool.not_eq_true'] at hs
      simp [hs]
  | some id =>
      rw [hslot] at hs
      simp only [slotWF, Bool.and_eq_true] at hs
      have := hasOpen_of_isOpenIdx hs.1
      simp [this]

theorem id_lt_of_mem {store : List Entry} (h : idsWF store = true) {e : Entry}
    (he : e ∈ store) : e.id < store.length := by
  obtain ⟨i, hi, rfl⟩ := List.mem_iff_getElem.mp he
  have hall := List.all_eq_true.mp h i (by simpa using hi)
  have hg : store[i]? = some store[i] := List.getElem?_eq_some.mpr ⟨hi, rfl⟩
  rw [hg] at hall
  simp at hall
  rw [hall]
  exact hi

/-- **C4.** A delta for `sd` creates a fresh entry (new id, text built
from empty by the append, pushed at the end of the array, slot set)
exactly when no non-final entry for `sd` exists; otherwise it appends
`t` in place to the existing non-final entry and changes nothing else.
Consecutive same-sender deltas therefore concatenate in arrival order
("hel" then "lo" yields one entry "hello"), and a delta arriving after
`completeTurn` starts a new entry instead of appending to the finalized
one. -/
theorem applyDelta_spec (s : TranscriptState) (sd : Sender) (t : String)
    (h : WF s = true) :
    (hasOpen s.store sd = false →
        applyDelta sd t s =
          setSlot { s with store := s.store ++ [⟨s.store.length, sd, t, false⟩],
                           order := s.order ++ [s.store.length] } sd
            (some s.store.length) ∧
        ∀ e ∈ s.store, e.id ≠ s.store.length) ∧
    (hasOpen s.store sd = true →
        ∃ id e, slotOf s sd = some id ∧ s.store[id]? = some e ∧
          e.sender = sd ∧ e.isFinal = false ∧
          applyDelta sd t s =
            { s with store := s.store.set id { e with text := e.text ++ t } }) ∧
    ((applyDelta .user "hi"
        (completeTurn (applyDelta .user "lo" (applyDelta .user "hel"
          transcriptReset)))).store =
      [⟨0, .user, "hello", true⟩, ⟨1, .user, "hi", false⟩]) := by
  refine ⟨?_, ?_, by decide⟩
  · intro hopen
    have hslot : slotOf s sd = none := (slot_none_iff h sd).mpr hopen
    constructor
    · cases sd with
      | user =>
          have hci : s.currentInput = none := by simpa [slotOf] using hslot
          simp only [applyDelta, slotOf, hci, setSlot]
          simp [concat_getElem_length, concat_set_length]
      | ai =>
          have hco : s.currentOutput = none := by simpa [slotOf] using hslot
          simp only [applyDelta, slotOf, hco, setSlot]
          simp [concat_getElem_length, concat_set_length]
    · intro e he hid
      have := id_lt_of_mem (wf_parts h).1 he
      omega
  · intro hopen
    cases hslot : slotOf s sd with
    | none =>
        rw [(slot_none_iff h sd).mp hslot] at hopen
        cases hopen
    | some id =>
        have hs := slotWF_of_wf h sd
        rw [hslot] at hs
        simp only [slotWF, Bool.and_eq_true] at hs
        have hopenIdx := hs.1
        unfold isOpenIdx at hopenIdx
        cases hge : s.store[id]? with
        | none => rw [hge] at hopenIdx; cases hopenIdx
        | some e =>
            rw [hge] at hopenIdx
            simp only [Bool.and_eq_true, beq_iff_eq, Bool.not_eq_true'] at hopenIdx
            refine ⟨id, e, rfl, hge, hopenIdx.1, hopenIdx.2, ?_⟩
            simp only [applyDelta, hslot, hge]

/-- Witness for C4, instantiated at the freshly-reset transcript state. -/
theorem applyDelta_spec_witness :
    WF transcriptReset = true ∧
      ((hasOpen transcriptReset.store .user = false →
          applyDelta .user "x" transcriptReset =
            setSlot { transcriptReset with
                        store := transcriptReset.store ++
                          [⟨transcriptReset.store.length, .user, "x", false⟩],
                        order := transcriptReset.order ++
                          [transcriptReset.store.length] }
              .user (some transcriptReset.store.length) ∧
          ∀ e ∈ transcriptReset.store, e.id ≠ transcriptReset.store.length) ∧
       (hasOpen transcriptReset.store .user = true →
          ∃ id e, slotOf transcriptReset .user = some id ∧
            transcriptReset.store[id]? = some e ∧
            e.sender = .user ∧ e.isFinal = false ∧
            applyDelta .user "x" transcriptReset =
              { transcriptReset with
                  store := transcriptReset.store.set id
                    { e with text := e.text ++ "x" } }) ∧
       ((applyDelta .user "hi"
           (completeTurn (applyDelta .user "lo" (applyDelta .user "hel"
             transcriptReset)))).store =
         [⟨0, .user, "hello", true⟩, ⟨1, .user, "hi", false⟩])) :=
  ⟨by decide, applyDelta_spec transcriptReset .user "x" (by decide)⟩

theorem markFinal_final {e : Entry} (h : e.isFinal = true) : markFinal e = e := by
  cases e
  simp_all [markFinal]

theorem finalizeAt_getElem (store : List Entry) (slot : Option Nat) (i : Nat) :
    (finalizeAt store slot)[i]? =
      if slot = some i then (store[i]?).map markFinal else store[i]? := by
  cases slot with
  | none => simp [finalizeAt]
  | some j =>
      unfold finalizeAt
      by_cases hij : j = i
      · subst hij
        cases hg : store[j]? with
        | none => simp [hg]
        | some e =>
            have hlt := (List.getElem?_eq_some.mp hg).1
            simp [List.getElem?_set_self hlt, hg]
      · cases hg : store[j]? with
        | none => simp [hg, hij]
        | some e => simp [hg, List.getElem?_set_ne hij, hij]

theorem open_of_slot {s : TranscriptState} (h : WF s = true) {sd : Sender} {id : Nat}
    (hslot : slotOf s sd = some id) :
    ∃ e, s.store[id]? = some e ∧ e.sender = sd ∧ e.isFinal = false := by
  have hs := slotWF_of_wf h sd
  rw [hslot] at hs
  simp only [slotWF, Bool.and_eq_true] at hs
  have hi := hs.1
  unfold isOpenIdx at hi
  cases hg : s.store[id]? with
  | none => rw [hg] at hi; cases hi
  | some e =>
      rw [hg] at hi
      simp only [Bool.and_eq_true, beq_iff_eq, Bool.not_eq_true'] at hi
      exact ⟨e, rfl, hi.1, hi.2⟩

theorem slot_of_open {s : TranscriptState} (h : WF s = true) {i : Nat} {sd : Sender}
    (hi : isOpenIdx s.store i sd = true) : slotOf s sd = some i := by
  have hs := slotWF_of_wf h sd
  cases hslot : slotOf s sd with
  | none =>
      rw [hslot] at hs
      simp only [slotWF, Bool.not_eq_true'] at hs
      rw [hasOpen_of_isOpenIdx hi] at hs
      cases hs
  | some id =>
      rw [hslot] at hs
      simp only [slotWF, Bool.and_eq_true] at hs
      have hlt : i < s.store.length := by
        unfold isOpenIdx at hi
        cases hg : s.store[i]? with
        | none => rw [hg] at hi; cases hi
        | some e => exact (List.getElem?_eq_some.mp hg).1
      have huniq := List.all_eq_true.mp hs.2 i (by simpa using hlt)
      simp only [hi, Bool.not_true, Bool.false_or, beq_iff_eq] at huniq
      simp [huniq]

theorem completeTurn_store (s : TranscriptState) (h : WF s = true) :
    (completeTurn s).store = s.store.map markFinal := by
  apply List.ext_getElem?
  intro i
  rw [List.getElem?_map]
  show (finalizeAt (finalizeAt s.store s.currentInput) s.currentOutput)[i]? = _
  rw [finalizeAt_getElem, finalizeAt_getElem]
  cases hg : s.store[i]? with
  | none => split <;> split <;> simp [hg]
  | some e =>
      by_cases hco : s.currentOutput = some i
      · obtain ⟨ea, hga, hsa, hfa⟩ := @open_of_slot s h .ai i hco
        by_cases hci : s.currentInput = some i
        · obtain ⟨eu, hgu, hsu, hfu⟩ := @open_of_slot s h .user i hci
          rw [hga] at hgu
          cases hgu
          rw [hsa] at hsu
          cases hsu
        · simp [hco, hci]
      · by_cases hci : s.currentInput = some i
        · simp [hco, hci]
        · simp only [hco, hci, if_false]
          cases hf : e.isFinal with
          | true => simp [hg, markFinal_final hf]
          | false =>
              exfalso
              have hopen : isOpenIdx s.store i e.sender = true := by
                simp [isOpenIdx, hg, hf]
              have := slot_of_open h hopen
              cases hes : e.sender with
              | user => rw [hes] at this; exact hci this
              | ai => rw [hes] at this; exact hco this

/-- **C5.** `turnComplete` handling marks every non-final entry of both
senders as final (under the invariant, finalizing the two slots
finalizes exactly the open entries, so the store becomes the store with
`isFinal` set everywhere), clears both slots (so the next delta of
either sender starts a new entry, by `applyDelta_spec`), leaves the
array order unchanged, is the identity when no open entries exist, is
idempotent, and on the interleaved run `applyDelta user "a"`,
`applyDelta ai "b"`, `completeTurn` yields exactly two finalized
entries, one per sender, with distinct ids 0 and 1. -/
theorem completeTurn_spec (s : TranscriptState) (h : WF s = true) :
    (completeTurn s).store = s.store.map markFinal ∧
    (completeTurn s).currentInput = none ∧
    (completeTurn s).currentOutput = none ∧
    (completeTurn s).order = s.order ∧
    (hasOpen s.store .user = false ∧ hasOpen s.store .ai = false →
        completeTurn s = s) ∧
    completeTurn (completeTurn s) = completeTurn s ∧
    (materialize
        (completeTurn (applyDelta .ai "b" (applyDelta .user "a"
          transcriptReset))).store
        (completeTurn (applyDelta .ai "b" (applyDelta .user "a"
          transcriptReset))).order =
      [⟨0, .user, "a", true⟩, ⟨1, .ai, "b", true⟩]) := by
  refine ⟨completeTurn_store s h, rfl, rfl, rfl, ?_, rfl, by decide⟩
  rintro ⟨hu, ha⟩
  have hci : s.currentInput = none := (slot_none_iff h .user).mpr hu
  have hco : s.currentOutput = none := (slot_none_iff h .ai).mpr ha
  cases s with
  | mk st od ci co =>
      simp only at hci hco
      subst hci
      subst hco
      simp [completeTurn, finalizeAt]

/-- Witness for C5, instantiated at the freshly-reset transcript state. -/
theorem completeTurn_spec_witness :
    WF transcriptReset = true ∧
      ((completeTurn transcriptReset).store =
          transcriptReset.store.map markFinal ∧
       (completeTurn transcriptReset).currentInput = none ∧
       (completeTurn transcriptReset).currentOutput = none ∧
       (completeTurn transcriptReset).order = transcriptReset.order ∧
       (hasOpen transcriptReset.store .user = false ∧
          hasOpen transcriptReset.store .ai = false →
            completeTurn transcriptReset = transcriptReset) ∧
       completeTurn (completeTurn transcriptReset) =
          completeTurn transcriptReset ∧
       (materialize
          (completeTurn (applyDelta .ai "b" (applyDelta .user "a"
            transcriptReset))).store
          (completeTurn (applyDelta .ai "b" (applyDelta .user "a"
            transcriptReset))).order =
        [⟨0, .user, "a", true⟩, ⟨1, .ai, "b", true⟩])) :=
  ⟨by decide, completeTurn_spec transcriptReset (by decide)⟩

/-! ## Inbound message dispatch (`onmessage`, part_000 lines 184-234)

A `LiveServerMessage` as far as the handler reads it.  The base64/PCM
codec is external (`decode` / `decodeAudioData` from audioUtils), so an
audio payload is modelled by its decode outcome: `some duration` when it
decodes to a buffer of that duration, `none` when decoding throws.  The
handler has no try/catch, so a decode failure aborts the rest of the
handler for that message (the async function rejects): the statements
after the decode — source start, clock advance, and the `interrupted`
block — do not run, but `nextStartTime = max(nextStartTime, now)` on
line 212 has already run. -/

structure AudioPayload where
  decoded : Option ℚ
deriving Repr, DecidableEq

structure ServerMessage where
  inputTranscription : Option String
  outputTranscription : Option String
  turnComplete : Bool
  audioData : Option AudioPayload
  interrupted : Bool
deriving Repr, DecidableEq

/-- Externally observable calls the handler makes, in program order:
`onTranscriptionUpdate([...transcriptionsRef.current])` (the snapshot is
the array copy, i.e. the list of entry references), `source.start(t)`,
and `source.stop()` during an interruption flush. -/
inductive HookAction
  | notify (snapshot : List Nat)
  | startSource (id : Nat) (startTime : ℚ)
  | stopSource (id : Nat)
deriving Repr, DecidableEq

structure HookState where
  ts : TranscriptState
  pb : PlaybackState
deriving Repr, DecidableEq

/-- Transcript part of `onmessage` (lines 185-206): an
`inputTranscription` delta, else an `outputTranscription` delta, then
the `turnComplete` finalization. -/
def transcriptPhase (msg : ServerMessage) (ts : TranscriptState) : TranscriptState :=
  let ts1 :=
    match msg.inputTranscription with
    | some t => applyDelta .user t ts
    | none =>
        match msg.outputTranscription with
        | some t => applyDelta .ai t ts
        | none => ts
  if msg.turnComplete then completeTurn ts1 else ts1

/-- Whole `onmessage` handler (lines 184-234): transcript updates, then
the unconditional `onTranscriptionUpdate` call (line 207), then the
audio block (lines 209-227, `enqueueChunk` on successful decode, only
the line-212 clock update on decode failure since the thrown error
aborts the handler), then the `interrupted` block (lines 229-233,
`interruptFlush`).  Returns the new state and the calls made, in
program order. -/
def onmessage (now : ℚ) (msg : ServerMessage) (s : HookState) :
    HookState × List HookAction :=
  let ts2 := transcriptPhase msg s.ts
  let acts1 : List HookAction := [.notify ts2.order]
  match msg.audioData with
  | some pl =>
      match pl.decoded with
      | none =>
          (⟨ts2, { s.pb with nextStartTime := max s.pb.nextStartTime now }⟩, acts1)
      | some dur =>
          let r := enqueueChunk now dur s.pb
          let acts2 := acts1 ++ [.startSource s.pb.nextSourceId r.2]
          if msg.interrupted then
            let ri := interruptFlush r.1
            (⟨ts2, ri.1⟩, acts2 ++ ri.2.map .stopSource)
          else (⟨ts2, r.1⟩, acts2)
  | none =>
      if msg.interrupted then
        let ri := interruptFlush s.pb
        (⟨ts2, ri.1⟩, acts1 ++ ri.2.map .stopSource)
      else (⟨ts2, s.pb⟩, acts1)

/-- **C6.** In a single inbound message carrying both transcript content
(a delta or a turn-complete) and a decodable audio payload, the
transcript update is applied and the observer notified with the updated
snapshot (at trace position 0) strictly before the audio chunk's source
is started (at trace position 1). -/
theorem transcript_before_audio (now : ℚ) (msg : ServerMessage) (s : HookState)
    (pl : AudioPayload) (dur : ℚ)
    (_htr : msg.inputTranscription.isSome = true ∨
      msg.outputTranscription.isSome = true ∨ msg.turnComplete = true)
    (ha : msg.audioData = some pl) (hd : pl.decoded = some dur) :
    ∃ i j : Nat, i < j ∧
      (onmessage now msg s).2[i]? =
        some (HookAction.notify (transcriptPhase msg s.ts).order) ∧
      (onmessage now msg s).2[j]? =
        some (HookAction.startSource s.pb.nextSourceId (enqueueChunk now dur s.pb).2) ∧
      (onmessage now msg s).1.ts = transcriptPhase msg s.ts := by
  refine ⟨0, 1, by omega, ?_⟩
  by_cases hint : msg.interrupted <;>
    simp [onmessage, ha, hd, hint, enqueueChunk, List.getElem?_append]

/-- Witness for C6: a message carrying the output delta "Hi", a
turn-complete flag and a decodable chunk of duration 2, handled on the
freshly-started state at time 0. -/
theorem transcript_before_audio_witness :
    ((⟨none, some "Hi", true, some ⟨some 2⟩, false⟩ :
        ServerMessage).inputTranscription.isSome = true ∨
      (⟨none, some "Hi", true, some ⟨some 2⟩, false⟩ :
        ServerMessage).outputTranscription.isSome = true ∨
      (⟨none, some "Hi", true, some ⟨some 2⟩, false⟩ :
        ServerMessage).turnComplete = true) ∧
    (∃ i j : Nat, i < j ∧
      (onmessage 0 ⟨none, some "Hi", true, some ⟨some 2⟩, false⟩
        ⟨transcriptReset, ⟨0, [], 0⟩⟩).2[i]? =
        some (HookAction.notify (transcriptPhase
          ⟨none, some "Hi", true, some ⟨some 2⟩, false⟩ transcriptReset).order) ∧
      (onmessage 0 ⟨none, some "Hi", true, some ⟨some 2⟩, false⟩
        ⟨transcriptReset, ⟨0, [], 0⟩⟩).2[j]? =
        some (HookAction.startSource 0 (enqueueChunk 0 2 ⟨0, [], 0⟩).2) ∧
      (onmessage 0 ⟨none, some "Hi", true, some ⟨some 2⟩, false⟩
        ⟨transcriptReset, ⟨0, [], 0⟩⟩).1.ts =
        transcriptPhase ⟨none, some "Hi", true, some ⟨some 2⟩, false⟩
          transcriptReset) :=
  ⟨Or.inr (Or.inl rfl),
   transcript_before_audio 0 ⟨none, some "Hi", true, some ⟨some 2⟩, false⟩
     ⟨transcriptReset, ⟨0, [], 0⟩⟩ ⟨some 2⟩ 2 (Or.inr (Or.inl rfl)) rfl rfl⟩

/-! ## Snapshots handed to the observer

`onTranscriptionUpdate([...transcriptionsRef.current])` (line 207) hands
the observer a fresh array — a shallow copy: a new list of references to
the same entry objects.  The delivered snapshot is therefore the list of
ids `order`; its content, at any later time, is that id list read
through the store current at that time. -/

def notifyPayload : HookAction → Option (List Nat)
  | .notify ids => some ids
  | _ => none

/-- Transcript state after `applyDelta('user', "hel")`, at which point a
snapshot is delivered to the observer. -/
def tEx1 : TranscriptState := applyDelta .user "hel" transcriptReset

/-- The snapshot delivered after the first delta: a copy of the array of
entry references current at that time. -/
def obsSnap1 : List Nat := tEx1.order

/-- Transcript state after the subsequent `applyDelta('user', "lo")`,
which mutates in place the entry object the delivered snapshot holds. -/
def tEx2 : TranscriptState := applyDelta .user "lo" tEx1

/-- Counterexample to C8 as stated: the snapshot delivered after the
"hel" delta reads `[⟨0, user, "hel", open⟩]` at delivery time, but after
the later "lo" delta the same delivered array reads
`[⟨0, user, "hello", open⟩]` — the later mutation of the log altered the
content of the already-delivered snapshot, because the array copy shares
the entry objects. -/
theorem snapshot_mutated_after_delivery :
    materialize tEx1.store obsSnap1 = [⟨0, .user, "hel", false⟩] ∧
    materialize tEx2.store obsSnap1 = [⟨0, .user, "hello", false⟩] ∧
    materialize tEx2.store obsSnap1 ≠ materialize tEx1.store obsSnap1 := by
  refine ⟨by decide, by decide, ?_⟩
  decide

/-- **C8 (amended).** Every inbound message triggers exactly one
observer notification, whose payload is a fresh array copy listing the
log's entries as of notification time (never partial or torn); but the
copy is shallow — the entry objects are shared — so a later in-place
mutation of a still-open entry changes the content of an
already-delivered snapshot (witnessed by the concrete run of
`snapshot_mutated_after_delivery`'s states). -/
theorem snapshot_full_copy_shared_entries (now : ℚ) (msg : ServerMessage)
    (s : HookState) :
    (onmessage now msg s).2.filterMap notifyPayload =
      [(transcriptPhase msg s.ts).order] ∧
    materialize tEx2.store obsSnap1 ≠ materialize tEx1.store obsSnap1 := by
  constructor
  · cases ha : msg.audioData with
    | none =>
        by_cases hint : msg.interrupted <;>
          simp [onmessage, ha, hint, notifyPayload, List.filterMap_append]
    | some pl =>
        cases hd : pl.decoded with
        | none => simp [onmessage, ha, hd, notifyPayload]
        | some dur =>
            by_cases hint : msg.interrupted <;>
              simp [onmessage, ha, hd, hint, notifyPayload, List.filterMap_append]
  · decide

/-! ## Decode failure (C9)

The handler has no try/catch around `decode` / `decodeAudioData`
(lines 214-215), and line 212 has already set
`nextStartTime = max(nextStartTime, now)` before the decode is
attempted.  A failed decode therefore leaves the clock at
`max(clock, now)` — not at the value it would have had if the chunk had
never arrived — and nothing is logged by the handler (the rejection
escapes the async callback). -/

theorem decode_failure_mutates_clock :
    (onmessage 10 ⟨none, none, false, some ⟨none⟩, false⟩
        ⟨transcriptReset, ⟨5, [], 0⟩⟩).1.pb.nextStartTime = 10 ∧
    (onmessage 10 ⟨none, none, false, none, false⟩
        ⟨transcriptReset, ⟨5, [], 0⟩⟩).1.pb.nextStartTime = 5 ∧
    ((10 : ℚ) = 5 → False) ∧
    (onmessage 11 ⟨none, none, false, some ⟨some 1⟩, false⟩
        (onmessage 10 ⟨none, none, false, some ⟨none⟩, false⟩
          ⟨transcriptReset, ⟨5, [], 0⟩⟩).1).2 =
      [.notify [], .startSource 0 11] := by
  refine ⟨?_, ?_, by norm_num, ?_⟩ <;>
    norm_num [onmessage, transcriptPhase, enqueueChunk, transcriptReset]

/-! ## Session teardown (`cleanup`, `stopSession`, part_000 lines 43-92)

Every resource the `cleanup` function touches, with the refs it nulls
and the flags it clears.  `ReleaseAction` records the actual resource
release calls made (`clearInterval`, `source.stop()`,
`scriptProcessor.disconnect()`, `track.stop()`, `AudioContext.close()`,
`session.close()`); React state setters are modelled as the flag fields,
not as release calls. -/

inductive CtxState
  | running
  | closed
deriving Repr, DecidableEq

structure LifeState where
  frameInterval : Option Nat
  audioSources : List Nat
  scriptProcessor : Option Nat
  mediaStreamTracks : Option (List Nat)
  localStream : Option (List Nat)
  inputCtx : Option CtxState
  outputCtx : Option CtxState
  nextStartTime : ℚ
  sessionPromise : Option Nat
  videoElement : Option Nat
  canvasElement : Option Nat
  isConnected : Bool
  isConnecting : Bool
deriving Repr, DecidableEq

inductive ReleaseAction
  | clearFrameInterval
  | stopAudioSource (id : Nat)
  | disconnectProcessor
  | stopTrack (id : Nat)
  | closeInputCtx
  | closeOutputCtx
  | closeSession
deriving Repr, DecidableEq

/-- The `cleanup` callback (lines 43-80): each release step is guarded
on its ref being non-null (and, for the audio contexts, on the context
not already being closed); afterwards every ref is null, the source set
empty, the clock 0 and both status flags false. -/
def cleanup (s : LifeState) : LifeState × List ReleaseAction :=
  let a1 : List ReleaseAction :=
    match s.frameInterval with
    | some _ => [.clearFrameInterval]
    | none => []
  let a2 := s.audioSources.map ReleaseAction.stopAudioSource
  let a3 : List ReleaseAction :=
    match s.scriptProcessor with
    | some _ => [.disconnectProcessor]
    | none => []
  let a4 : List ReleaseAction :=
    match s.mediaStreamTracks with
    | some tracks => tracks.map ReleaseAction.stopTrack
    | none => []
  let a5 : List ReleaseAction :=
    match s.inputCtx with
    | some .running => [.closeInputCtx]
    | _ => []
  let a6 : List ReleaseAction :=
    match s.outputCtx with
    | some .running => [.closeOutputCtx]
    | _ => []
  (⟨none, [], none, none, none, none, none, 0, none, none, none, false, false⟩,
   a1 ++ a2 ++ a3 ++ a4 ++ a5 ++ a6)

/-- `stopSession` (lines 82-92): close the transport session if the
session ref is non-null, then run `cleanup`. -/
def stopSession (s : LifeState) : LifeState × List ReleaseAction :=
  match s.sessionPromise with
  | some _ =>
      let r := cleanup s
      (r.1, .closeSession :: r.2)
  | none => cleanup s

/-- The transport `onclose` callback (line 235) runs `cleanup`. -/
def oncloseHandler (s : LifeState) : LifeState × List ReleaseAction := cleanup s

/-- The transport `onerror` callback (lines 236-239) runs `cleanup`. -/
def onerrorHandler (s : LifeState) : LifeState × List ReleaseAction := cleanup s

/-- **C7.** After one teardown pass — whether triggered by `stopSession`,
by the transport close callback or by the transport error callback — a
second trigger of any kind is a no-op: it leaves the state unchanged and
performs zero release calls, because every release step is guarded on a
ref that the first pass nulled (in particular a second `stopSession`
skips `session.close()` since the session ref is null). -/
theorem teardown_idempotent (s : LifeState) :
    stopSession (stopSession s).1 = ((stopSession s).1, []) ∧
    stopSession (oncloseHandler s).1 = ((oncloseHandler s).1, []) ∧
    oncloseHandler (stopSession s).1 = ((stopSession s).1, []) ∧
    onerrorHandler (stopSession s).1 = ((stopSession s).1, []) ∧
    cleanup (cleanup s).1 = ((cleanup s).1, []) := by
  cases hsp : s.sessionPromise <;>
    simp [stopSession, cleanup, oncloseHandler, onerrorHandler, hsp]

/-! ## Camera switch (`switchCamera`, part_000 lines 248-270)

`getUserMedia` outcomes are modelled by the function `gum`, mapping a
device id to `some track` (acquisition succeeds) or `none` (the promise
rejects).  The code stops the old video track (line 253) BEFORE calling
`getUserMedia` for the new device (line 256); on rejection the async
function aborts with the old track already stopped and still in the
stream. -/

structure Track where
  id : Nat
  live : Bool
deriving Repr, DecidableEq

structure MediaStreamState where
  videoTracks : List Track
deriving Repr, DecidableEq

inductive CamAction
  | stopTrack (id : Nat)
  | getUserMediaCall (deviceId : Nat)
deriving Repr, DecidableEq

inductive CamResult
  | ok
  | thrown
deriving Repr, DecidableEq

/-- `switchCamera(newDeviceId)` (lines 248-270): return immediately if
there is no media stream; otherwise stop the first video track, then
request the new device, then swap the track in the stream.  Returns the
resulting stream, the calls made in program order, and whether the
async function completed or rejected. -/
def switchCamera (gum : Nat → Option Track) (newDeviceId : Nat)
    (stream : Option MediaStreamState) :
    Option MediaStreamState × List CamAction × CamResult :=
  match stream with
  | none => (none, [], .ok)
  | some st =>
      match st.videoTracks.head? with
      | none => (some st, [], .thrown)
      | some old =>
          let stopped : MediaStreamState :=
            ⟨st.videoTracks.map fun t =>
              if t.id = old.id then { t with live := false } else t⟩
          match gum newDeviceId with
          | none =>
              (some stopped, [.stopTrack old.id, .getUserMediaCall newDeviceId],
               .thrown)
          | some newTrack =>
              (some ⟨(stopped.videoTracks.filter fun t => t.id ≠ old.id) ++
                  [newTrack]⟩,
               [.stopTrack old.id, .getUserMediaCall newDeviceId], .ok)

/-- Run of `switchCamera` exhibiting C3's failure: an active stream with
one live video track (id 0), device 7 unavailable.  The code stops the
old track (trace position 0) before the `getUserMedia` call (trace
position 1), so after the failed acquisition the old track is stopped
(`live := false`) — not, as the claim states, still active with no side
effects. -/
theorem switchCamera_kills_old_track_on_failure :
    switchCamera (fun _ => none) 7 (some ⟨[⟨0, true⟩]⟩) =
      (some ⟨[⟨0, false⟩]⟩, [.stopTrack 0, .getUserMediaCall 7], .thrown) := by
  rfl

/-- **C10.** `switchCamera` with no session media stream returns
immediately: no track stopped, no device acquired, no state change, no
error. -/
theorem switchCamera_no_stream_noop (gum : Nat → Option Track)
    (newDeviceId : Nat) :
    switchCamera gum newDeviceId none = (none, [], .ok) := rfl
